import Mathlib

/-!
A shallow embedding, in Lean 4, of the map compiler implemented in
`src/bntmx.py` (the `TMXConverter` class and the helper `bg_size`), together
with theorems settling the specification claims about it.

Modelling conventions:

* Python lists become Lean `List`s; Python dicts of a layer's objects
  (class name → list of objects) become association lists
  `List (String × List α)` whose key order is the dict's iteration order.
* Python string class names stay `String`; Python `sorted` on strings is
  `List.insertionSort (· ≤ ·)` over the lexicographic order of `String`,
  which matches Python's code-point lexicographic order.
* Machine integers of the emitted C++ (`int` arguments, `uint16_t` span
  fields) are modelled as `Int` / `Nat` with explicit `% 2 ^ 16` where
  truncation matters.
* `src/bntmx.py` imports `MapObject` and `TMX` from the repository's `tmx`
  module, which is not available; the parts of the behaviour decided by that
  module (the per-layer class → objects mapping and the assignment of
  `id_value` from the module counter `MapObject._next_id_value`) are modelled
  from the spec and are marked `Modelled from the spec:` in their doc
  comments.  Everything else is translated directly from `src/bntmx.py`.
-/

namespace Bntmx

/-- Modelled from the spec: a map object as supplied by the missing `tmx`
module before identity assignment — an optional symbolic name (`id`) and a
class name (`""` = classless). -/
structure RawObject where
  id : Option String
  cls : String
deriving DecidableEq, Repr

/-- Modelled from the spec: `tmx.MapObject` — a map object carrying its
numeric identity `id_value`, assigned from the module counter
`MapObject._next_id_value` at construction time. -/
structure MapObject where
  id : Option String
  cls : String
  id_value : Nat
deriving DecidableEq, Repr

/-- The class → objects mapping of one object layer, as returned by the `tmx`
module's `layer.objects()`: an association list from class name to the ordered
list of that class's objects, in the dict's iteration order. -/
abbrev ObjectLayer (α : Type) := List (String × List α)

/-- The keys of a layer's class → objects dict. -/
def layerKeys {α : Type} (layer : ObjectLayer α) : List String :=
  layer.map Prod.fst

/-- `bg_size` from `src/bntmx.py`:
`size if size % 256 == 0 else (size // 256 + 1) * 256`. -/
def bg_size (size : Nat) : Nat :=
  if size % 256 = 0 then size else (size / 256 + 1) * 256

/-- `TMXConverter._object_classes`: the sorted set of map object class names
in the whole map — `sorted(set(keys across layers))`. -/
def object_classes {α : Type} (objects : List (ObjectLayer α)) : List String :=
  List.insertionSort (· ≤ ·) ((objects.flatMap layerKeys).dedup)

/-- `TMXConverter._object_classes_enum`: the enumeration entries for the class
names, `enumerate` then dropping the first entry (`[1:]`).  An entry
`(i, c)` models the emitted enumerator `c=i`. -/
def object_classes_enum {α : Type} (objects : List (ObjectLayer α)) :
    List (Nat × String) :=
  ((object_classes objects).enum).drop 1

/-- `TMXConverter._all_objects`: the flattened list of the map objects in the
whole map, layers in order, and inside a layer the dict items in order. -/
def all_objects {α : Type} (objects : List (ObjectLayer α)) : List α :=
  objects.flatMap (fun layer => layer.flatMap Prod.snd)

/-- `len(layer.objects()[object_class]) if object_class in layer.objects()
else 0` from `TMXConverter._object_spans`. -/
def lookupLen {α : Type} (layer : ObjectLayer α) (c : String) : Nat :=
  match layer.lookup c with
  | some objs => objs.length
  | none => 0

/-- The inner loop of `TMXConverter._object_spans`: one `(index, length)` pair
per class in `classes` order, threading the running `index`; returns the pairs
and the final index. -/
def spansFor {α : Type} (layer : ObjectLayer α) :
    List String → Nat → List (Nat × Nat) × Nat
  | [], i => ([], i)
  | c :: cs, i =>
    let len := lookupLen layer c
    let rest := spansFor layer cs (i + len)
    ((i, len) :: rest.1, rest.2)

/-- The outer loop of `TMXConverter._object_spans`: one row per layer, the
running index carried from layer to layer. -/
def spansAux {α : Type} :
    List (ObjectLayer α) → List String → Nat → List (List (Nat × Nat))
  | [], _, _ => []
  | l :: ls, cs, i =>
    let r := spansFor l cs i
    r.1 :: spansAux ls cs r.2

/-- `TMXConverter._object_spans`: for each layer, the `(index, length)` pair
of each class of `_object_classes`, indices running through the flattened
object sequence. -/
def object_spans {α : Type} (objects : List (ObjectLayer α)) :
    List (List (Nat × Nat)) :=
  spansAux objects (object_classes objects) 0

/-- Sum of the class-wise lengths a layer contributes for a class list. -/
def classes_total {α : Type} (layer : ObjectLayer α) (cs : List String) : Nat :=
  (cs.map (lookupLen layer)).sum

/-- The total number of objects stored in a layer's dict. -/
def layer_total {α : Type} (layer : ObjectLayer α) : Nat :=
  (layer.map (fun p => p.2.length)).sum

/-- An element of the emitted `_objects` C++ data table: either the rendered
form of a map object, or the dummy placeholder element
`bntmx::map_object(bn::fixed_point(0, 0), 0)` emitted when the flattened
sequence is empty. -/
inductive CppObject (α : Type) where
  | placeholder
  | rendered (o : α)
deriving DecidableEq, Repr

/-- The emitted `_objects` data table from `TMXConverter.cpp_source`: the
rendered flattened objects, or the single placeholder when there are none
(`cpp_objects = "{...dummy...}"; if len(flattened_objects) > 0: ...`). -/
def cpp_objects {α : Type} (flattened : List α) : List (CppObject α) :=
  if 0 < flattened.length then flattened.map CppObject.rendered
  else [CppObject.placeholder]

/-- The row chunking of a tile layer performed by `tiles_to_array_literal` in
`TMXConverter.cpp_source`: `[tiles[i:i + width] for i in range(0, len(tiles),
width)]`.  For `width = 0` Python's `range` raises; that input is outside the
modelled domain and returns `[]` here (all theorems assume `0 < width`). -/
def tile_rows {α : Type} (width : Nat) (tiles : List α) : List (List α) :=
  match tiles with
  | [] => []
  | t :: ts =>
    if h : width = 0 then []
    else (t :: ts).take width :: tile_rows width ((t :: ts).drop width)
termination_by tiles.length
decreasing_by
  simp only [List.length_drop, List.length_cons]
  omega

/-- The declared element count of each emitted `_tiles[layer]` row:
`size = width_in_tiles * height_in_tiles` in `TMXConverter.cpp_source`. -/
def tiles_declared_size (width_in_tiles height_in_tiles : Nat) : Nat :=
  width_in_tiles * height_in_tiles

/-- The assert condition of the emitted accessor `object(int id)`:
`BN_ASSERT(id < n_objects, ...)`.  The C++ `int` argument is modelled as an
unbounded `Int`. -/
def object_assert_cond (id n_objects : Int) : Prop :=
  id < n_objects

/-- The assert condition of the emitted accessor
`objects(int objects_layer_index)`:
`BN_ASSERT(objects_layer_index < n_objects_layers, ...)`. -/
def objects_assert_cond (objects_layer_index n_objects_layers : Int) : Prop :=
  objects_layer_index < n_objects_layers

/-- The conjunction of the two assert conditions of the emitted accessor
`objects(int objects_layer_index, int objects_class)`. -/
def objects_class_assert_cond (objects_layer_index objects_class
    n_objects_layers n_objects_classes : Int) : Prop :=
  objects_layer_index < n_objects_layers ∧ objects_class < n_objects_classes

/-- The assert condition of the emitted accessor
`tiles(int tiles_layer_index)`:
`BN_ASSERT(tiles_layer_index < n_tiles_layers, ...)`. -/
def tiles_assert_cond (tiles_layer_index n_tiles_layers : Int) : Prop :=
  tiles_layer_index < n_tiles_layers

/-- An accessor argument is in range when it lies in `[0, count)`. -/
def arg_in_range (x count : Int) : Prop :=
  0 ≤ x ∧ x < count

/-- The span returned by the emitted single-argument accessor
`objects(int objects_layer_index)`:
`bn::span(&_objects[_objects_spans[i][0].index], _objects_spans[i][0].length)`,
modelled as the `(start, length)` pair it selects, namely entry 0 of the
layer's row of the span table.  The `getD` defaults only matter for
out-of-range indexing, which is undefined behaviour in the emitted C++. -/
def objects_accessor {α : Type} (objects : List (ObjectLayer α))
    (objects_layer_index : Nat) : Nat × Nat :=
  ((object_spans objects).getD objects_layer_index []).getD 0 (0, 0)

/-- The value actually stored by a `uint16_t` field of the emitted
`_objects_spans` table for a numeric value `n`: `n` truncated to 16 bits. -/
def stored16 (n : Nat) : Nat :=
  n % 2 ^ 16

/-- Modelled from the spec: the class → objects mapping the missing `tmx`
module supplies for one object layer (`layer.objects()`).  Built by grouping
the layer's objects by class (default `""`), preserving source encounter
order within a class; the dict's iteration order is by sorted class name,
matching the flatten-order invariant and the comment emitted in
`TMXConverter.cpp_source` ("within layers they are sorted by classes, with
classless objects first"). -/
def catalog (raw : List RawObject) : ObjectLayer RawObject :=
  (List.insertionSort (· ≤ ·) ((raw.map RawObject.cls).dedup)).map
    (fun c => (c, raw.filter (fun r => r.cls == c)))

/-- Modelled from the spec: construction of the `tmx.MapObject`s of one class
list, each taking `id_value` from the running counter
`MapObject._next_id_value` and incrementing it. -/
def assignObjs : Nat → List RawObject → List MapObject × Nat
  | c0, [] => ([], c0)
  | c0, r :: rs =>
    let rest := assignObjs (c0 + 1) rs
    (⟨r.id, r.cls, c0⟩ :: rest.1, rest.2)

/-- Modelled from the spec: identity assignment across the classes of one
layer, in the layer's (sorted-class) iteration order. -/
def assignLayer : Nat → ObjectLayer RawObject → ObjectLayer MapObject × Nat
  | c0, [] => ([], c0)
  | c0, (c, objs) :: rest =>
    let a := assignObjs c0 objs
    let r := assignLayer a.2 rest
    ((c, a.1) :: r.1, r.2)

/-- Modelled from the spec: identity assignment across the object layers of
one map, in descriptor order. -/
def assignLayers : Nat → List (ObjectLayer RawObject) → List (ObjectLayer MapObject) × Nat
  | c0, [] => ([], c0)
  | c0, l :: ls =>
    let a := assignLayer c0 l
    let r := assignLayers a.2 ls
    (a.1 :: r.1, r.2)

/-- One map conversion: the object layers are cataloged and every object is
constructed — receiving its `id_value` — in flatten order, the counter
starting from 0 because `process` resets `MapObject._next_id_value = 0`
before converting each map (src/bntmx.py line 358). -/
def convert_map (raw_layers : List (List RawObject)) : List (ObjectLayer MapObject) :=
  (assignLayers 0 (raw_layers.map catalog)).1

/-- `process` from `src/bntmx.py`, restricted to the object pipeline: each
map of the batch is converted with the identity counter freshly reset to 0. -/
def process (batch : List (List (List RawObject))) : List (List (ObjectLayer MapObject)) :=
  batch.map convert_map

/-- Example map (spec testable property 5): one object layer holding one
classless object and one object of class `"Enemy"`, as its cataloged
class → objects mapping. -/
def exampleMap : List (ObjectLayer Nat) :=
  [[("", [10]), ("Enemy", [20])]]

/-- Example raw map input: one object layer with a single classless object
named `"Hero"`. -/
def heroRaw : List (List RawObject) :=
  [[⟨some "Hero", ""⟩]]

/-- Example map for the 16-bit span-field analysis: one layer with two
classes of 40000 objects each. -/
def bigMap : List (ObjectLayer Nat) :=
  [[("a", List.replicate 40000 0), ("b", List.replicate 40000 0)]]

/-- `TMXConverter.regular_bg_descriptor`: the `height` value written into the
emitted background descriptor is `bg_size(src_height)` (the per-layer rounded
height, not multiplied by the layer count). -/
def regular_bg_descriptor_height (src_height : Nat) : Nat :=
  bg_size src_height

/-- `TMXConverter.regular_bg_image`: the height of the composed background
image canvas, `bg_height * n_layers` with `n_layers = len(descriptor["graphics"])`. -/
def regular_bg_image_height (src_height n_graphics_layers : Nat) : Nat :=
  bg_size src_height * n_graphics_layers

end Bntmx

namespace Bntmx

/-! ### Helper lemmas about the span table machinery -/

lemma spansFor_snd {α : Type} (layer : ObjectLayer α) (cs : List String) (i : Nat) :
    (spansFor layer cs i).2 = i + classes_total layer cs := by
  induction cs generalizing i with
  | nil => simp [spansFor, classes_total]
  | cons c cs ih =>
    simp only [spansFor, classes_total, List.map_cons, List.sum_cons]
    rw [ih]
    unfold classes_total
    omega

lemma spansFor_fst_length {α : Type} (layer : ObjectLayer α) (cs : List String) (i : Nat) :
    (spansFor layer cs i).1.length = cs.length := by
  induction cs generalizing i with
  | nil => simp [spansFor]
  | cons c cs ih => simp [spansFor, ih]

lemma spansFor_map_snd {α : Type} (layer : ObjectLayer α) (cs : List String) (i : Nat) :
    (spansFor layer cs i).1.map Prod.snd = cs.map (lookupLen layer) := by
  induction cs generalizing i with
  | nil => simp [spansFor]
  | cons c cs ih => simp [spansFor, ih]

lemma classes_total_take_succ {α : Type} (layer : ObjectLayer α) (cs : List String)
    (j : Nat) (hj : j < cs.length) :
    classes_total layer (cs.take (j + 1))
      = classes_total layer (cs.take j) + lookupLen layer (cs.getD j "") := by
  unfold classes_total
  rw [List.take_succ, List.map_append, List.sum_append,
    List.getD_eq_getElem cs "" hj, List.getElem?_eq_getElem hj]
  simp

lemma spansFor_getD {α : Type} (layer : ObjectLayer α) (cs : List String)
    (i j : Nat) (hj : j < cs.length) :
    ((spansFor layer cs i).1).getD j (0, 0)
      = (i + classes_total layer (cs.take j), lookupLen layer (cs.getD j "")) := by
  induction cs generalizing i j with
  | nil => simp at hj
  | cons c cs ih =>
    cases j with
    | zero => simp [spansFor, classes_total]
    | succ j =>
      simp only [spansFor, List.getD_cons_succ, List.getD_cons_zero, List.take_succ_cons]
      rw [ih (i + lookupLen layer c) j (by simpa using hj)]
      unfold classes_total
      simp only [List.map_cons, List.sum_cons, Prod.mk.injEq]
      exact ⟨by omega, trivial⟩

lemma spansAux_length {α : Type} (objects : List (ObjectLayer α)) (cs : List String) (i : Nat) :
    (spansAux objects cs i).length = objects.length := by
  induction objects generalizing i with
  | nil => simp [spansAux]
  | cons l ls ih => simp [spansAux, ih]

lemma spansAux_getD {α : Type} (objects : List (ObjectLayer α)) (cs : List String)
    (i li : Nat) (hli : li < objects.length) :
    (spansAux objects cs i).getD li []
      = (spansFor (objects.getD li []) cs
          (i + ((objects.take li).map (fun l => classes_total l cs)).sum)).1 := by
  induction objects generalizing i li with
  | nil => simp at hli
  | cons l ls ih =>
    cases li with
    | zero => simp [spansAux]
    | succ li =>
      simp only [spansAux, List.getD_cons_succ, List.take_succ_cons, List.map_cons,
        List.sum_cons]
      rw [ih (spansFor l cs i).2 li (by simpa using hli), spansFor_snd]
      congr 2
      omega

lemma lookupLen_eq_zero {α : Type} (layer : ObjectLayer α) (c : String)
    (h : c ∉ layerKeys layer) : lookupLen layer c = 0 := by
  have hnone : layer.lookup c = none := by
    rw [List.lookup_eq_none_iff]
    intro p hp
    rw [bne_iff_ne]
    intro he
    exact h (he ▸ List.mem_map_of_mem Prod.fst hp)
  simp [lookupLen, hnone]

lemma sum_lookupLen_keys {α : Type} (layer : ObjectLayer α)
    (h : (layerKeys layer).Nodup) :
    ((layerKeys layer).map (lookupLen layer)).sum = layer_total layer := by
  induction layer with
  | nil => simp [layerKeys, layer_total]
  | cons p rest ih =>
    obtain ⟨k, objs⟩ := p
    rw [layerKeys, List.map_cons] at h
    have hk : k ∉ layerKeys rest := (List.nodup_cons.mp h).1
    have hrest : (layerKeys rest).Nodup := (List.nodup_cons.mp h).2
    have h1 : lookupLen ((k, objs) :: rest) k = objs.length := by
      simp [lookupLen, List.lookup]
    have h2 : (layerKeys rest).map (lookupLen ((k, objs) :: rest))
        = (layerKeys rest).map (lookupLen rest) := by
      apply List.map_congr_left
      intro a ha
      have hne : (a == k) = false := by
        rw [beq_eq_false_iff_ne]
        intro he
        exact hk (he ▸ ha)
      simp [lookupLen, List.lookup, hne]
    simp only [layerKeys, List.map_cons, List.sum_cons, layer_total]
    rw [h1]
    have h2' : (List.map Prod.fst rest).map (lookupLen ((k, objs) :: rest))
        = (List.map Prod.fst rest).map (lookupLen rest) := h2
    simp only [layerKeys] at ih
    rw [h2', ih hrest]
    rfl

lemma classes_total_filter {α : Type} (layer : ObjectLayer α) (cs : List String) :
    classes_total layer cs
      = ((cs.filter (fun c => c ∈ layerKeys layer)).map (lookupLen layer)).sum := by
  unfold classes_total
  induction cs with
  | nil => simp
  | cons c cs ih =>
    by_cases hc : c ∈ layerKeys layer
    · simp [List.filter_cons, hc, ih]
    · simp [List.filter_cons, hc, ih, lookupLen_eq_zero layer c hc]

lemma classes_total_eq_layer_total {α : Type} (layer : ObjectLayer α)
    (cs : List String) (hcs : cs.Nodup) (hkeys : (layerKeys layer).Nodup)
    (hsub : ∀ k ∈ layerKeys layer, k ∈ cs) :
    classes_total layer cs = layer_total layer := by
  have hperm : (cs.filter (fun c => c ∈ layerKeys layer)).Perm (layerKeys layer) := by
    apply List.perm_of_nodup_nodup_toFinset_eq (hcs.filter _) hkeys
    ext a
    simp only [List.mem_toFinset, List.mem_filter, decide_eq_true_eq]
    exact ⟨fun ha => ha.2, fun ha => ⟨hsub a ha, ha⟩⟩
  rw [classes_total_filter, (hperm.map (lookupLen layer)).sum_eq,
    sum_lookupLen_keys layer hkeys]

lemma layer_total_eq_length {α : Type} (layer : ObjectLayer α) :
    layer_total layer = (layer.flatMap Prod.snd).length := by
  rw [List.length_flatMap]
  rfl

lemma object_classes_nodup {α : Type} (objects : List (ObjectLayer α)) :
    (object_classes objects).Nodup :=
  (List.perm_insertionSort _ _).nodup_iff.mpr (List.nodup_dedup _)

lemma object_classes_sorted {α : Type} (objects : List (ObjectLayer α)) :
    List.Sorted (· ≤ ·) (object_classes objects) :=
  List.sorted_insertionSort _ _

lemma mem_object_classes {α : Type} {objects : List (ObjectLayer α)} {c : String} :
    c ∈ object_classes objects ↔ c ∈ objects.flatMap layerKeys := by
  unfold object_classes
  rw [(List.perm_insertionSort _ _).mem_iff, List.mem_dedup]

lemma keys_subset_object_classes {α : Type} {objects : List (ObjectLayer α)}
    {l : ObjectLayer α} (hl : l ∈ objects) :
    ∀ k ∈ layerKeys l, k ∈ object_classes objects :=
  fun k hk => mem_object_classes.mpr (List.mem_flatMap.mpr ⟨l, hl, hk⟩)

lemma prefix_classes_total_eq {α : Type} (objects : List (ObjectLayer α))
    (cs : List String) (hcs : cs.Nodup)
    (hkeys : ∀ l ∈ objects, (layerKeys l).Nodup)
    (hsub : ∀ l ∈ objects, ∀ k ∈ layerKeys l, k ∈ cs) :
    (objects.map (fun l => classes_total l cs)).sum = (all_objects objects).length := by
  unfold all_objects
  rw [List.length_flatMap]
  congr 1
  apply List.map_congr_left
  intro l hl
  rw [classes_total_eq_layer_total l cs hcs (hkeys l hl) (hsub l hl),
    layer_total_eq_length]
  rfl

lemma object_spans_row {α : Type} (objects : List (ObjectLayer α))
    (li : Nat) (hli : li < objects.length) :
    (object_spans objects).getD li []
      = (spansFor (objects.getD li []) (object_classes objects)
          (((objects.take li).map
              (fun l => classes_total l (object_classes objects))).sum)).1 := by
  unfold object_spans
  rw [spansAux_getD objects (object_classes objects) 0 li hli, Nat.zero_add]

lemma object_spans_offset {α : Type} (objects : List (ObjectLayer α))
    (hkeys : ∀ l ∈ objects, (layerKeys l).Nodup) (li : Nat) :
    ((objects.take li).map (fun l => classes_total l (object_classes objects))).sum
      = (all_objects (objects.take li)).length :=
  prefix_classes_total_eq _ _ (object_classes_nodup objects)
    (fun l hl => hkeys l (List.mem_of_mem_take hl))
    (fun l hl => keys_subset_object_classes (List.mem_of_mem_take hl))

/-- C2: the span table has one row per object layer and one `(start, length)`
entry per class ordinal per row, in table order; within a layer the entries
are contiguous (each entry's start is the previous start plus its length) and
non-overlapping, together they cover exactly that layer's subrange of the
flattened object sequence (the first entry starts at the layer's offset in
the flattened sequence, entry `j` starts at that offset plus the lengths of
the previous entries, and the lengths sum to the layer's flattened object
count), and entries of classes with no objects in the layer have length 0. -/
theorem object_spans_table {α : Type} (objects : List (ObjectLayer α))
    (hkeys : ∀ l ∈ objects, (layerKeys l).Nodup)
    (li : Nat) (hli : li < objects.length) :
    (object_spans objects).length = objects.length ∧
    ((object_spans objects).getD li []).length = (object_classes objects).length ∧
    (∀ j, j + 1 < (object_classes objects).length →
      (((object_spans objects).getD li []).getD (j + 1) (0, 0)).1
        = (((object_spans objects).getD li []).getD j (0, 0)).1
          + (((object_spans objects).getD li []).getD j (0, 0)).2) ∧
    (∀ j, j < (object_classes objects).length →
      ((object_spans objects).getD li []).getD j (0, 0)
        = ((all_objects (objects.take li)).length
             + classes_total (objects.getD li []) ((object_classes objects).take j),
           lookupLen (objects.getD li []) ((object_classes objects).getD j ""))) ∧
    ((((object_spans objects).getD li []).map Prod.snd).sum
        = ((objects.getD li []).flatMap Prod.snd).length) ∧
    (∀ j, j < (object_classes objects).length →
      (object_classes objects).getD j "" ∉ layerKeys (objects.getD li []) →
      (((object_spans objects).getD li []).getD j (0, 0)).2 = 0) := by
  have hrow := object_spans_row objects li hli
  have hoffset := object_spans_offset objects hkeys li
  have hmem : objects.getD li [] ∈ objects := by
    rw [List.getD_eq_getElem objects [] hli]
    exact List.getElem_mem hli
  refine ⟨?_, ?_, ?_, ?_, ?_, ?_⟩
  · unfold object_spans
    exact spansAux_length objects _ 0
  · rw [hrow, spansFor_fst_length]
  · intro j hj
    have hj' : j < (object_classes objects).length := by omega
    rw [hrow, spansFor_getD _ _ _ (j + 1) hj, spansFor_getD _ _ _ j hj']
    simp only
    rw [classes_total_take_succ _ _ j hj']
    omega
  · intro j hj
    rw [hrow, spansFor_getD _ _ _ j hj, hoffset]
  · rw [hrow, spansFor_map_snd]
    rw [show (List.map (lookupLen (objects.getD li [])) (object_classes objects)).sum
        = classes_total (objects.getD li []) (object_classes objects) from rfl]
    rw [classes_total_eq_layer_total _ _ (object_classes_nodup objects)
      (hkeys _ hmem) (keys_subset_object_classes hmem), layer_total_eq_length]
  · intro j hj hnot
    rw [hrow, spansFor_getD _ _ _ j hj]
    exact lookupLen_eq_zero _ _ hnot

/-- C2 witness: the span-table theorem applied to the concrete example map
(one layer, one classless object, one `"Enemy"` object). -/
theorem object_spans_table_witness :
    (∀ l ∈ exampleMap, (layerKeys l).Nodup) ∧ 0 < exampleMap.length ∧
    ((object_spans exampleMap).length = exampleMap.length ∧
    ((object_spans exampleMap).getD 0 []).length = (object_classes exampleMap).length ∧
    (∀ j, j + 1 < (object_classes exampleMap).length →
      (((object_spans exampleMap).getD 0 []).getD (j + 1) (0, 0)).1
        = (((object_spans exampleMap).getD 0 []).getD j (0, 0)).1
          + (((object_spans exampleMap).getD 0 []).getD j (0, 0)).2) ∧
    (∀ j, j < (object_classes exampleMap).length →
      ((object_spans exampleMap).getD 0 []).getD j (0, 0)
        = ((all_objects (exampleMap.take 0)).length
             + classes_total (exampleMap.getD 0 []) ((object_classes exampleMap).take j),
           lookupLen (exampleMap.getD 0 []) ((object_classes exampleMap).getD j ""))) ∧
    ((((object_spans exampleMap).getD 0 []).map Prod.snd).sum
        = ((exampleMap.getD 0 []).flatMap Prod.snd).length) ∧
    (∀ j, j < (object_classes exampleMap).length →
      (object_classes exampleMap).getD j "" ∉ layerKeys (exampleMap.getD 0 []) →
      (((object_spans exampleMap).getD 0 []).getD j (0, 0)).2 = 0)) :=
  ⟨by decide, by decide, object_spans_table exampleMap (by decide) 0 (by decide)⟩

lemma empty_string_le (s : String) : "" ≤ s :=
  String.le_iff_toList_le.mpr List.nil_le

lemma object_classes_head_of_mem {α : Type} (objects : List (ObjectLayer α))
    (h : "" ∈ objects.flatMap layerKeys) :
    (object_classes objects).getD 0 "" = "" := by
  have hmem : "" ∈ object_classes objects := mem_object_classes.mpr h
  cases hcs : object_classes objects with
  | nil => rw [hcs] at hmem; simp at hmem
  | cons c rest =>
    have hsorted := object_classes_sorted objects
    rw [hcs] at hsorted hmem
    simp only [List.getD_cons_zero]
    rcases List.mem_cons.mp hmem with he | he
    · exact he.symm
    · exact le_antisymm (List.rel_of_sorted_cons hsorted _ he) (empty_string_le c)

lemma exampleMap_classes : object_classes exampleMap = ["", "Enemy"] := by
  have hd : (exampleMap.flatMap layerKeys).dedup = ["", "Enemy"] := by decide
  unfold object_classes
  rw [hd]
  simp only [List.insertionSort, List.orderedInsert]
  rw [if_pos (empty_string_le "Enemy")]

lemma exampleMap_spans : object_spans exampleMap = [[(0, 1), (1, 1)]] := by
  unfold object_spans
  rw [exampleMap_classes]
  decide

lemma bigMap_classes : object_classes bigMap = ["a", "b"] := by
  have hd : (bigMap.flatMap layerKeys).dedup = ["a", "b"] := by decide
  unfold object_classes
  rw [hd]
  simp only [List.insertionSort, List.orderedInsert]
  rw [if_pos ?hab]
  case hab =>
    rw [String.le_iff_toList_le]
    decide

lemma bigMap_spans : object_spans bigMap = [[(0, 40000), (40000, 40000)]] := by
  have key : ∀ r : List Nat, r.length = 40000 →
      spansAux [[("a", r), ("b", r)]] ["a", "b"] 0 = [[(0, 40000), (40000, 40000)]] := by
    intro r hr
    simp [spansAux, spansFor, lookupLen, List.lookup, hr]
  unfold object_spans
  rw [bigMap_classes]
  exact key _ (by rw [List.length_replicate])

/-- C3 counterexample: on the example map (one layer with one classless and
one `"Enemy"` object), the emitted single-argument accessor
`objects(0)` returns the span `(0, 1)` — only the class-ordinal-0
(classless) objects — and not the layer's full subrange of the flattened
sequence, which has length 2.  This refutes the claim that `objects(layer)`
spans all classes of the layer: the emitted body reads
`_objects_spans[layer][0]` alone, so its length is ordinal 0's length. -/
theorem objects_accessor_not_whole_layer :
    objects_accessor exampleMap 0 = (0, 1) ∧
    (all_objects exampleMap).length = 2 ∧
    (objects_accessor exampleMap 0).2 ≠ (all_objects exampleMap).length := by
  have h : objects_accessor exampleMap 0 = (0, 1) := by
    unfold objects_accessor
    rw [exampleMap_spans]
    decide
  refine ⟨h, by decide, ?_⟩
  rw [h]
  decide

/-- C3 amended: for every valid object layer index (and nonempty class set),
the emitted accessor `objects(layer)` returns exactly the class-ordinal-0
span of that layer: it starts at the layer's offset in the flattened object
sequence and its length is the number of the layer's objects of the
lexicographically first class (ordinal 0), not the layer's whole subrange. -/
theorem objects_accessor_class0_span {α : Type} (objects : List (ObjectLayer α))
    (hkeys : ∀ l ∈ objects, (layerKeys l).Nodup)
    (li : Nat) (hli : li < objects.length)
    (hcls : 0 < (object_classes objects).length) :
    objects_accessor objects li
      = ((all_objects (objects.take li)).length,
         lookupLen (objects.getD li []) ((object_classes objects).getD 0 "")) := by
  unfold objects_accessor
  rw [object_spans_row objects li hli, spansFor_getD _ _ _ 0 hcls,
    object_spans_offset objects hkeys li]
  simp [classes_total]

/-- C3 witness: the amended accessor theorem applied to the example map. -/
theorem objects_accessor_class0_span_witness :
    (∀ l ∈ exampleMap, (layerKeys l).Nodup) ∧ 0 < exampleMap.length ∧
    0 < (object_classes exampleMap).length ∧
    objects_accessor exampleMap 0
      = ((all_objects (exampleMap.take 0)).length,
         lookupLen (exampleMap.getD 0 []) ((object_classes exampleMap).getD 0 "")) :=
  ⟨by decide, by decide, by rw [exampleMap_classes]; decide,
    objects_accessor_class0_span exampleMap (by decide) 0 (by decide)
      (by rw [exampleMap_classes]; decide)⟩

/-- C4 counterexample: a map whose only object has class `"Enemy"` (no
classless object anywhere).  The computed class set is `["Enemy"]`, so
ordinal 0 is `"Enemy"`, not `""`, and the emitted class enumeration — which
always drops ordinal 0 — is empty, omitting the real class `"Enemy"`.
This refutes the claim that the class set always includes `""`, that
ordinal 0 is always `""`, and that no real class is omitted. -/
theorem object_classes_enum_missing_empty :
    object_classes (convert_map [[⟨none, "Enemy"⟩]]) = ["Enemy"] ∧
    (object_classes (convert_map [[⟨none, "Enemy"⟩]])).getD 0 "" ≠ "" ∧
    object_classes_enum (convert_map [[⟨none, "Enemy"⟩]]) = [] := by
  decide

/-- C4 amended: the computed class set is the sorted duplicate-free union of
the class strings that occur in the object layers (so `""` is present only
when some layer holds a classless object).  Whenever a classless object
exists, ordinal 0 is `""`, and the emitted enumeration — the enumerated
class set with ordinal 0 dropped — lists exactly the real (non-empty)
classes, each with its sorted-order ordinal in `1..N-1`, and omits none of
them. -/
theorem object_classes_enum_spec {α : Type} (objects : List (ObjectLayer α))
    (h : "" ∈ objects.flatMap layerKeys) :
    (object_classes objects).getD 0 "" = "" ∧
    (∀ c ∈ objects.flatMap layerKeys, c ≠ "" →
      ∃ i, 1 ≤ i ∧ i < (object_classes objects).length ∧
        (object_classes objects).getD i "" = c ∧
        (i, c) ∈ object_classes_enum objects) ∧
    (∀ p ∈ object_classes_enum objects,
      1 ≤ p.1 ∧ p.1 < (object_classes objects).length ∧
      p.2 = (object_classes objects).getD p.1 "" ∧ p.2 ≠ "") := by
  have hhead := object_classes_head_of_mem objects h
  have hnd := object_classes_nodup objects
  have h0len : 0 < (object_classes objects).length :=
    List.length_pos.mpr (List.ne_nil_of_mem (mem_object_classes.mpr h))
  refine ⟨hhead, ?_, ?_⟩
  · intro c hc hne
    obtain ⟨i, hi, hgi⟩ := List.mem_iff_getElem.mp (mem_object_classes.mpr hc)
    have hi0 : i ≠ 0 := by
      intro he
      subst he
      rw [← List.getD_eq_getElem _ "" hi, hhead] at hgi
      exact hne hgi.symm
    refine ⟨i, by omega, hi, ?_, ?_⟩
    · rw [List.getD_eq_getElem _ "" hi, hgi]
    · unfold object_classes_enum
      rw [List.mem_iff_getElem]
      refine ⟨i - 1, ?_, ?_⟩
      · rw [List.length_drop, List.enum_length]
        omega
      · rw [List.getElem_drop, List.getElem_enum]
        have hidx : 1 + (i - 1) = i := by omega
        simp only [hidx]
        rw [hgi]
  · intro p hp
    unfold object_classes_enum at hp
    obtain ⟨j, hj, hpj⟩ := List.mem_iff_getElem.mp hp
    rw [List.getElem_drop, List.getElem_enum] at hpj
    have hlt : 1 + j < (object_classes objects).length := by
      rw [List.length_drop, List.enum_length] at hj
      omega
    obtain rfl := hpj.symm
    refine ⟨by omega, by simpa using hlt, ?_, ?_⟩
    · rw [List.getD_eq_getElem _ "" (by simpa using hlt)]
    · intro he
      have he2 : (object_classes objects).getD (1 + j) "" = "" := by
        rw [List.getD_eq_getElem _ "" (by simpa using hlt)]
        simpa using he
      have h00 := hhead
      rw [List.getD_eq_getElem _ "" (by simpa using hlt)] at he2
      rw [List.getD_eq_getElem _ "" h0len] at h00
      have hsame := he2.trans h00.symm
      rw [hnd.getElem_inj_iff] at hsame
      omega

/-- C4 witness: the amended class-enumeration theorem applied to the example
map, which does contain a classless object. -/
theorem object_classes_enum_spec_witness :
    ("" ∈ exampleMap.flatMap layerKeys) ∧
    ((object_classes exampleMap).getD 0 "" = "" ∧
    (∀ c ∈ exampleMap.flatMap layerKeys, c ≠ "" →
      ∃ i, 1 ≤ i ∧ i < (object_classes exampleMap).length ∧
        (object_classes exampleMap).getD i "" = c ∧
        (i, c) ∈ object_classes_enum exampleMap) ∧
    (∀ p ∈ object_classes_enum exampleMap,
      1 ≤ p.1 ∧ p.1 < (object_classes exampleMap).length ∧
      p.2 = (object_classes exampleMap).getD p.1 "" ∧ p.2 ≠ "")) :=
  ⟨by decide, object_classes_enum_spec exampleMap (by decide)⟩

/-- C8 counterexample: the argument `-1` is out of range for every emitted
accessor (valid ranges are `[0, count)`), yet every emitted assert condition
evaluates to true at `-1` — the asserts compare only against the upper
bound — so the accessors do not abort on negative arguments and instead
index out of bounds.  This refutes the claim that each assert condition is
false exactly when an argument is out of range. -/
theorem assert_conds_pass_negative :
    object_assert_cond (-1) 5 ∧ ¬ arg_in_range (-1) 5 ∧
    objects_assert_cond (-1) 3 ∧ ¬ arg_in_range (-1) 3 ∧
    objects_class_assert_cond (-1) (-2) 3 4 ∧
    (¬ arg_in_range (-1) 3 ∧ ¬ arg_in_range (-2) 4) ∧
    tiles_assert_cond (-1) 2 ∧ ¬ arg_in_range (-1) 2 := by
  refine ⟨?_, ?_, ?_, ?_, ?_, ⟨?_, ?_⟩, ?_, ?_⟩ <;>
    simp [object_assert_cond, objects_assert_cond, objects_class_assert_cond,
      tiles_assert_cond, arg_in_range]

/-- C8 amended: each emitted accessor's assert condition is false — so the
accessor asserts and aborts — exactly when the corresponding argument is
greater than or equal to its count (the upper bound); arguments below 0,
although equally out of range, pass every assert condition. -/
theorem assert_conds_upper_bound_only (id li c ti n_objects n_layers
    n_classes n_tiles : Int) :
    (¬ object_assert_cond id n_objects ↔ n_objects ≤ id) ∧
    (¬ objects_assert_cond li n_layers ↔ n_layers ≤ li) ∧
    (¬ objects_class_assert_cond li c n_layers n_classes
        ↔ (n_layers ≤ li ∨ n_classes ≤ c)) ∧
    (¬ tiles_assert_cond ti n_tiles ↔ n_tiles ≤ ti) := by
  unfold object_assert_cond objects_assert_cond objects_class_assert_cond
    tiles_assert_cond
  refine ⟨?_, ?_, ?_, ?_⟩ <;> omega

lemma lookupLen_zero_of_all_nil {α : Type} (layer : ObjectLayer α) :
    (∀ p ∈ layer, p.2 = ([] : List α)) → ∀ c, lookupLen layer c = 0 := by
  induction layer with
  | nil => intro _ c; rfl
  | cons p rest ih =>
    intro hall c
    obtain ⟨k, objs⟩ := p
    have hobjs : objs = [] := hall (k, objs) (List.mem_cons_self _ _)
    have hrest := ih (fun q hq => hall q (List.mem_cons_of_mem _ hq)) c
    by_cases hck : (c == k) = true
    · simp [lookupLen, List.lookup, hck, hobjs]
    · simp only [Bool.not_eq_true] at hck
      simpa [lookupLen, List.lookup, hck] using hrest

lemma spansAux_row_mem {α : Type} (objects : List (ObjectLayer α))
    (cs : List String) (i : Nat) :
    ∀ row ∈ spansAux objects cs i,
      ∃ l ∈ objects, ∃ i0, row = (spansFor l cs i0).1 := by
  induction objects generalizing i with
  | nil => intro row hrow; simp [spansAux] at hrow
  | cons l ls ih =>
    intro row hrow
    rcases List.mem_cons.mp hrow with he | he
    · exact ⟨l, List.mem_cons_self _ _, i, he⟩
    · obtain ⟨l', hl', i0, h⟩ := ih _ row he
      exact ⟨l', List.mem_cons_of_mem _ hl', i0, h⟩

/-- C9: when the flattened object sequence is empty, the emitted `_objects`
data table is not empty but consists of exactly the single placeholder
element, and every `(start, length)` entry of the span table — which is
computed by `_object_spans` from the layers alone, independently of the
substitution — has length 0, so the placeholder is never addressed through
a valid span. -/
theorem cpp_objects_placeholder_spec {α : Type} (objects : List (ObjectLayer α))
    (hempty : all_objects objects = []) :
    cpp_objects (all_objects objects) = [CppObject.placeholder] ∧
    (∀ row ∈ object_spans objects, ∀ e ∈ row, e.2 = 0) := by
  constructor
  · rw [hempty]
    rfl
  · have hall : ∀ l ∈ objects, ∀ p ∈ l, p.2 = [] := by
      unfold all_objects at hempty
      rw [List.flatMap_eq_nil_iff] at hempty
      intro l hl
      have hnil := hempty l hl
      rw [List.flatMap_eq_nil_iff] at hnil
      exact hnil
    intro row hrow e he
    obtain ⟨l, hl, i0, hrowEq⟩ := spansAux_row_mem objects _ 0 row hrow
    have h2 : e.2 ∈ (spansFor l (object_classes objects) i0).1.map Prod.snd :=
      List.mem_map_of_mem Prod.snd (hrowEq ▸ he)
    rw [spansFor_map_snd] at h2
    obtain ⟨c, _, hce⟩ := List.mem_map.mp h2
    rw [← hce]
    exact lookupLen_zero_of_all_nil l (hall l hl) c


/-- C9 witness: the placeholder theorem applied to a map with one object
layer that produces zero objects. -/
theorem cpp_objects_placeholder_spec_witness :
    (all_objects ([[]] : List (ObjectLayer Nat)) = []) ∧
    (cpp_objects (all_objects ([[]] : List (ObjectLayer Nat)))
        = [CppObject.placeholder] ∧
    (∀ row ∈ object_spans ([[]] : List (ObjectLayer Nat)), ∀ e ∈ row, e.2 = 0)) :=
  ⟨by decide, cpp_objects_placeholder_spec [[]] (by decide)⟩

lemma all_objects_append {α : Type} (xs ys : List (ObjectLayer α)) :
    all_objects (xs ++ ys) = all_objects xs ++ all_objects ys := by
  unfold all_objects
  exact List.flatMap_append xs ys _

lemma offset_le_total {α : Type} (objects : List (ObjectLayer α)) (li : Nat)
    (hli : li < objects.length) :
    (all_objects (objects.take li)).length + layer_total (objects.getD li [])
      ≤ (all_objects objects).length := by
  have hsplit : objects
      = objects.take li ++ objects.getD li [] :: objects.drop (li + 1) := by
    rw [List.getD_eq_getElem _ _ hli]
    conv_lhs => rw [← List.take_append_drop li objects]
    rw [List.drop_eq_getElem_cons hli]
  have hlen : (all_objects objects).length
      = (all_objects (objects.take li)).length
        + (((objects.getD li []).flatMap Prod.snd).length
            + (all_objects (objects.drop (li + 1))).length) := by
    conv_lhs => rw [hsplit]
    rw [all_objects_append]
    simp [all_objects, List.length_append]
  rw [layer_total_eq_length]
  omega

lemma classes_total_take_le {α : Type} (layer : ObjectLayer α)
    (cs : List String) (m : Nat) :
    classes_total layer (cs.take m) ≤ classes_total layer cs := by
  conv_rhs => rw [← List.take_append_drop m cs]
  unfold classes_total
  rw [List.map_append, List.sum_append]
  omega

/-- C10 counterexample: a map with one layer holding 40000 objects of class
`"a"` and 40000 of class `"b"`.  Every `(start, length)` value of the span
table (`(0, 40000)` and `(40000, 40000)`) fits a `uint16_t` without
truncation, yet the total flattened object count is 80000 > 65535.  This
refutes the claimed equivalence: fitting in 16 bits does not require the
total count to be at most 65535. -/
theorem spans_uint16_not_equivalent_to_total :
    (∀ row ∈ object_spans bigMap, ∀ e ∈ row,
      stored16 e.1 = e.1 ∧ stored16 e.2 = e.2) ∧
    65535 < (all_objects bigMap).length := by
  constructor
  · rw [bigMap_spans]
    intro row hrow e he
    rw [List.mem_singleton] at hrow
    subst hrow
    simp only [List.mem_cons, List.mem_singleton, List.not_mem_nil, or_false] at he
    rcases he with rfl | rfl
    · exact ⟨by decide, by decide⟩
    · exact ⟨by decide, by decide⟩
  · have key : ∀ r : List Nat, r.length = 40000 →
        (all_objects [[("a", r), ("b", r)]]).length = 80000 := by
      intro r hr
      simp [all_objects, hr]
    unfold bigMap
    rw [key _ (by rw [List.length_replicate])]
    decide

/-- C10 amended: the emitted `_objects_spans` table stores every start index
and length in unsigned 16-bit fields with no range check by the converter;
a sufficient condition for every stored value to be representable without
truncation is that the map's total flattened object count is at most 65535
(the condition is not necessary — see the counterexample). -/
theorem spans_uint16_no_truncation {α : Type} (objects : List (ObjectLayer α))
    (hkeys : ∀ l ∈ objects, (layerKeys l).Nodup)
    (htotal : (all_objects objects).length ≤ 65535) :
    ∀ row ∈ object_spans objects, ∀ e ∈ row,
      stored16 e.1 = e.1 ∧ stored16 e.2 = e.2 := by
  intro row hrow e he
  obtain ⟨li, hli, hrowEq⟩ := List.mem_iff_getElem.mp hrow
  have hli' : li < objects.length := by
    have := hli
    unfold object_spans at this
    rwa [spansAux_length] at this
  have hmem : objects.getD li [] ∈ objects := by
    rw [List.getD_eq_getElem objects [] hli']
    exact List.getElem_mem hli'
  have hrowD : (object_spans objects).getD li [] = row := by
    rw [List.getD_eq_getElem _ _ hli, hrowEq]
  rw [object_spans_row objects li hli'] at hrowD
  obtain ⟨j, hj, hje⟩ := List.mem_iff_getElem.mp (hrowD ▸ he)
  have hjlen : j < (object_classes objects).length := by
    rwa [spansFor_fst_length] at hj
  have hentry : e = ((((objects.take li).map
        (fun l => classes_total l (object_classes objects))).sum
          + classes_total (objects.getD li [])
              ((object_classes objects).take j)),
      lookupLen (objects.getD li []) ((object_classes objects).getD j "")) := by
    rw [← hje, ← List.getD_eq_getElem _ (0, 0) hj,
      spansFor_getD _ _ _ j hjlen]
  have hoffset := object_spans_offset objects hkeys li
  have hlayer : classes_total (objects.getD li []) (object_classes objects)
      = layer_total (objects.getD li []) :=
    classes_total_eq_layer_total _ _ (object_classes_nodup objects)
      (hkeys _ hmem) (keys_subset_object_classes hmem)
  have hbound := offset_le_total objects li hli'
  have htakej := classes_total_take_le (objects.getD li [])
    (object_classes objects) j
  have htakejs : classes_total (objects.getD li [])
        ((object_classes objects).take j)
      + lookupLen (objects.getD li []) ((object_classes objects).getD j "")
      ≤ classes_total (objects.getD li []) (object_classes objects) := by
    rw [← classes_total_take_succ _ _ j hjlen]
    exact classes_total_take_le _ _ (j + 1)
  have h1 : e.1 ≤ 65535 := by
    rw [hentry]
    simp only
    rw [hoffset] at *
    omega
  have h2 : e.2 ≤ 65535 := by
    rw [hentry]
    simp only
    rw [hoffset] at *
    omega
  unfold stored16
  exact ⟨Nat.mod_eq_of_lt (by omega), Nat.mod_eq_of_lt (by omega)⟩

/-- C10 witness: the no-truncation theorem applied to the example map, whose
total flattened object count is 2. -/
theorem spans_uint16_no_truncation_witness :
    (∀ l ∈ exampleMap, (layerKeys l).Nodup) ∧
    ((all_objects exampleMap).length ≤ 65535) ∧
    (∀ row ∈ object_spans exampleMap, ∀ e ∈ row,
      stored16 e.1 = e.1 ∧ stored16 e.2 = e.2) :=
  ⟨by decide, by decide,
    spans_uint16_no_truncation exampleMap (by decide) (by decide)⟩

lemma tile_rows_flatten_aux {α : Type} (width : Nat) (hw : 0 < width) :
    ∀ (n : Nat) (tiles : List α), tiles.length ≤ n →
      (tile_rows width tiles).flatten = tiles := by
  intro n
  induction n with
  | zero =>
    intro tiles h
    have hnil : tiles = [] := List.length_eq_zero.mp (by omega)
    subst hnil
    simp [tile_rows]
  | succ n ih =>
    intro tiles h
    cases tiles with
    | nil => simp [tile_rows]
    | cons t ts =>
      rw [tile_rows]
      rw [dif_neg (by omega : ¬width = 0)]
      rw [List.flatten_cons,
        ih ((t :: ts).drop width)
          (by
            simp only [List.length_drop, List.length_cons]
            simp only [List.length_cons] at h
            omega)]
      exact List.take_append_drop width (t :: ts)

/-- C5 counterexample: a tile layer of 7 source tile refs on a map of width
4 (declared per-layer array size `4 * 2 = 8`) is not rejected: the emission
chunks the refs into rows `[[0,1,2,3],[4,5,6]]` (the last row short) and
emits them, with no length validation anywhere in the converter.  This
refutes the claim that a source tile sequence whose length differs from
width × height fails with a data error. -/
theorem tile_rows_seven_not_rejected :
    tile_rows 4 ([0, 1, 2, 3, 4, 5, 6] : List Nat) = [[0, 1, 2, 3], [4, 5, 6]] ∧
    ([0, 1, 2, 3, 4, 5, 6] : List Nat).length ≠ tiles_declared_size 4 2 := by
  constructor
  · simp [tile_rows]
  · decide

/-- C5 amended: the conversion performs no length check on tile layers: for
every positive map width and every source tile sequence — whatever its
length — the emitted rows are the width-sized chunks of the sequence (the
last chunk possibly short), which flatten back to exactly the source
sequence; the declared array size `width * height` is computed from the map
dimensions independently of the sequence's actual length. -/
theorem tile_rows_no_validation {α : Type} (width : Nat) (hw : 0 < width)
    (tiles : List α) (height : Nat) :
    (tile_rows width tiles).flatten = tiles ∧
    tiles_declared_size width height = width * height :=
  ⟨tile_rows_flatten_aux width hw tiles.length tiles (Nat.le_refl _), rfl⟩

/-- C5 witness: the no-validation theorem applied to the 7-ref layer with
width 4. -/
theorem tile_rows_no_validation_witness :
    0 < 4 ∧
    ((tile_rows 4 ([0, 1, 2, 3, 4, 5, 6] : List Nat)).flatten
        = [0, 1, 2, 3, 4, 5, 6] ∧
    tiles_declared_size 4 2 = 4 * 2) :=
  ⟨by decide, tile_rows_no_validation 4 (by decide) [0, 1, 2, 3, 4, 5, 6] 2⟩

/-! ### Identity assignment (C1) -/

lemma range'_append_consec (s m n : Nat) :
    List.range' s m ++ List.range' (s + m) n = List.range' s (m + n) := by
  rw [Nat.add_comm m n]
  have h := List.range'_append s m n 1
  rw [Nat.one_mul] at h
  exact h

lemma assignObjs_spec (c0 : Nat) (objs : List RawObject) :
    (assignObjs c0 objs).1.map MapObject.id_value = List.range' c0 objs.length ∧
    (assignObjs c0 objs).2 = c0 + objs.length := by
  induction objs generalizing c0 with
  | nil => simp [assignObjs]
  | cons r rs ih =>
    obtain ⟨ih1, ih2⟩ := ih (c0 + 1)
    simp only [assignObjs, List.map_cons, List.length_cons]
    constructor
    · rw [List.range'_succ, ih1]
    · rw [ih2]
      omega

lemma layer_total_cons {α : Type} (c : String) (objs : List α)
    (rest : ObjectLayer α) :
    layer_total ((c, objs) :: rest) = objs.length + layer_total rest := by
  simp [layer_total]

lemma assignLayer_spec (c0 : Nat) (layer : ObjectLayer RawObject) :
    ((assignLayer c0 layer).1.flatMap Prod.snd).map MapObject.id_value
        = List.range' c0 (layer_total layer) ∧
    (assignLayer c0 layer).2 = c0 + layer_total layer := by
  induction layer generalizing c0 with
  | nil => simp [assignLayer, layer_total]
  | cons p rest ih =>
    obtain ⟨c, objs⟩ := p
    obtain ⟨ia, ib⟩ := assignObjs_spec c0 objs
    obtain ⟨ih1, ih2⟩ := ih ((assignObjs c0 objs).2)
    simp only [assignLayer, List.flatMap_cons, List.map_append, layer_total_cons]
    constructor
    · rw [ia, ih1, ib, range'_append_consec]
    · rw [ih2, ib]
      omega

lemma assignLayers_spec (c0 : Nat) (ls : List (ObjectLayer RawObject)) :
    (all_objects (assignLayers c0 ls).1).map MapObject.id_value
        = List.range' c0 ((ls.map layer_total).sum) ∧
    (assignLayers c0 ls).2 = c0 + (ls.map layer_total).sum := by
  induction ls generalizing c0 with
  | nil => simp [assignLayers, all_objects]
  | cons l ls ih =>
    obtain ⟨ia, ib⟩ := assignLayer_spec c0 l
    obtain ⟨ih1, ih2⟩ := ih ((assignLayer c0 l).2)
    simp only [assignLayers, all_objects, List.flatMap_cons, List.map_append,
      List.map_cons, List.sum_cons]
    constructor
    · rw [show (assignLayer c0 l).1.flatMap Prod.snd
            = List.flatMap (assignLayer c0 l).1 Prod.snd from rfl] at ia
      rw [ia]
      unfold all_objects at ih1
      rw [ih1, ib, range'_append_consec]
    · rw [ih2, ib]
      omega

/-- C1: for every batch of maps, every converted map's flattened object
sequence carries `id_value`s that are exactly `0, 1, …, N-1` in flatten
order — each object's `id_value` equals its position in the flattened
sequence, with no gaps or repeats — because the identity counter is reset
to 0 before each map conversion, independently for every map of the
batch. -/
theorem process_resets_ids (batch : List (List (List RawObject)))
    (m : List (ObjectLayer MapObject)) (hm : m ∈ process batch) :
    (all_objects m).map MapObject.id_value
      = List.range (all_objects m).length := by
  obtain ⟨raw, _, rfl⟩ := List.mem_map.mp hm
  unfold convert_map
  obtain ⟨h1, _⟩ := assignLayers_spec 0 (raw.map catalog)
  have hlen : (all_objects (assignLayers 0 (raw.map catalog)).1).length
      = (((raw.map catalog)).map layer_total).sum := by
    have hc := congrArg List.length h1
    simpa using hc
  rw [h1, hlen, List.range_eq_range']

/-- C1 witness: the identity theorem applied to a singleton batch. -/
theorem process_resets_ids_witness :
    (convert_map heroRaw ∈ process [heroRaw]) ∧
    (all_objects (convert_map heroRaw)).map MapObject.id_value
      = List.range (all_objects (convert_map heroRaw)).length :=
  ⟨by decide, process_resets_ids [heroRaw] (convert_map heroRaw) (by decide)⟩

/-- Helper: the three rounding facts about `bg_size`. -/
lemma bg_size_facts (n : Nat) :
    bg_size n % 256 = 0 ∧ n ≤ bg_size n ∧ bg_size n - n < 256 := by
  unfold bg_size
  by_cases h : n % 256 = 0
  · rw [if_pos h]
    exact ⟨h, Nat.le_refl n, by omega⟩
  · rw [if_neg h]
    refine ⟨?_, ?_, ?_⟩ <;> omega

/-- C7: for every nonnegative size, `bg_size` equals `size` when
`size % 256 = 0` and `256 * (size / 256 + 1)` otherwise; consequently the
result is a multiple of 256, is at least the input, and exceeds it by less
than 256 (so a dimension already a multiple of 256 is unchanged). -/
theorem bg_size_rounds_up (n : Nat) :
    bg_size n = (if n % 256 = 0 then n else 256 * (n / 256 + 1)) ∧
    bg_size n % 256 = 0 ∧ n ≤ bg_size n ∧ bg_size n - n < 256 := by
  obtain ⟨h1, h2, h3⟩ := bg_size_facts n
  refine ⟨?_, h1, h2, h3⟩
  unfold bg_size
  by_cases h : n % 256 = 0
  · rw [if_pos h, if_pos h]
  · rw [if_neg h, if_neg h]; ring

/-- C6 counterexample: for a map of source pixel height 260 with 2 graphics
layers, the height written into the emitted background descriptor is 512
(the rounded per-layer height), not `512 * 2 = 1024` (the total stacked
canvas height, which is the height of the composed image, not of the
descriptor).  This refutes the claim that the descriptor height equals the
rounded height multiplied by the number of graphics layers. -/
theorem regular_bg_descriptor_height_not_stacked :
    regular_bg_descriptor_height 260 = 512 ∧
    regular_bg_image_height 260 2 = 1024 ∧
    regular_bg_descriptor_height 260 ≠ bg_size 260 * 2 := by
  refine ⟨by decide, by decide, by decide⟩

/-- C6 amended: the height written into the emitted background descriptor is
the source pixel height rounded up to the next multiple of 256 — the height
of one layer's canvas — while the composed background image canvas is that
value multiplied by the number of graphics layers (the stacking happens in
the image, not in the descriptor). -/
theorem regular_bg_descriptor_height_spec (h n : Nat) :
    regular_bg_descriptor_height h % 256 = 0 ∧
    h ≤ regular_bg_descriptor_height h ∧
    regular_bg_descriptor_height h - h < 256 ∧
    regular_bg_image_height h n = regular_bg_descriptor_height h * n := by
  obtain ⟨h1, h2, h3⟩ := bg_size_facts h
  exact ⟨h1, h2, h3, rfl⟩

end Bntmx

